import Mathlib

/-!
# Verification of the LST event-source core (ctapipe_io_lst)

Shallow embedding of the DRS4 correction kernels, the event-type
classifier, the gain-selection container filling and the multi-file
k-way event merger, together with proofs of the specified properties.

Machine integers of the source are modelled as `Nat`/`Int` (with
explicit `% 2^64` where the uint64 wrap matters), float-valued
waveforms as `ℚ`, and the fallible merger constructor as `Except`.
-/

namespace CtapipeIoLst

/-! ## Constants (`constants.py`) -/

def N_GAINS : ℕ := 2
def N_MODULES : ℕ := 265
def N_PIXELS_MODULE : ℕ := 7
def N_PIXELS : ℕ := N_MODULES * N_PIXELS_MODULE
def N_CAPACITORS_CHANNEL : ℕ := 1024
def N_CAPACITORS_PIXEL : ℕ := 4 * N_CAPACITORS_CHANNEL
def N_SAMPLES : ℕ := 40
def HIGH_GAIN : ℕ := 0
def LOW_GAIN : ℕ := 1
def CLOCK_FREQUENCY_KHZ : ℚ := 133000

/-! ## Trigger bits and the event-type classifier (`__init__.py`)

`TriggerBits` is an `IntFlag`; we embed the flag values as natural
numbers and bitwise operations on them. -/

namespace TriggerBits

def MONO : ℕ := 1
def STEREO : ℕ := 2
def CALIBRATION : ℕ := 4
def SINGLE_PE : ℕ := 8
def SOFTWARE : ℕ := 16
def PEDESTAL : ℕ := 32
def SLOW_CONTROL : ℕ := 64
def PHYSICS : ℕ := MONO ||| STEREO
def OTHER : ℕ := CALIBRATION ||| SINGLE_PE ||| SOFTWARE ||| PEDESTAL ||| SLOW_CONTROL

end TriggerBits

/-- The relevant subset of `ctapipe.containers.EventType`. -/
inductive EventType
  | SUBARRAY
  | FLATFIELD
  | SKY_PEDESTAL
  | SINGLE_PE
  | UNKNOWN
deriving DecidableEq, Repr

open TriggerBits in
/-- `LSTEventSource._event_type_from_trigger_bits`. -/
def eventTypeFromTriggerBits (trigger_bits : ℕ) : EventType :=
  -- first bit mono trigger, second stereo; if *only* those two are
  -- set the event is a physics event
  if trigger_bits &&& PHYSICS ≠ 0 ∧ trigger_bits &&& OTHER = 0 then
    .SUBARRAY
  else if trigger_bits = CALIBRATION then
    .FLATFIELD
  else if trigger_bits = CALIBRATION ||| MONO then
    .FLATFIELD
  else if trigger_bits = PEDESTAL then
    .SKY_PEDESTAL
  else if trigger_bits = SINGLE_PE then
    .SINGLE_PE
  else
    .UNKNOWN

end CtapipeIoLst

namespace CtapipeIoLst

/-! ## DRS4 pedestal subtraction (`calibration.py`) -/

/-- `LSTR0Corrections._get_drs4_pedestal_data`: the table read from the
file (`base`, per capacitor, indices `0 .. 4095`) is extended by
repeating the first `N_SAMPLES` values at the end, and the configured
offset is subtracted from every entry. One `(gain, pixel)` cell of the
table. -/
def getDrs4PedestalData (base : ℕ → ℤ) (offset : ℤ) : ℕ → ℤ :=
  fun i =>
    (if i < N_CAPACITORS_PIXEL then base i else base (i - N_CAPACITORS_PIXEL)) - offset

/-- `subtract_pedestal`, restricted to one `(gain, pixel)` cell: the
pedestal slice `pedestal[fc : fc + N_SAMPLES]` is subtracted from the
40 samples; other indices of the (conceptual) buffer are untouched. -/
def subtractPedestalPixel (first_cap : ℕ) (pedestal : ℕ → ℤ) (waveform : ℕ → ℚ) : ℕ → ℚ :=
  fun s => if s < N_SAMPLES then waveform s - (pedestal (first_cap + s) : ℚ) else waveform s

end CtapipeIoLst

namespace CtapipeIoLst

/-! ## Spike-A interpolation (`calibration.py`) -/

/-- Python's `int()` on a rational value: truncation toward zero. -/
def pyTrunc (q : ℚ) : ℤ := if 0 ≤ q then ⌊q⌋ else ⌈q⌉

/-- `interpolate_spike_A`: overwrite samples `position` and
`position + 1` by the linear interpolation used in the source, in which
the two neighbour values are first truncated with `int(...)` before the
difference is taken. `position` is the Python (non-negative) index. -/
def interpolateSpikeA (waveform : ℕ → ℚ) (position : ℕ) : ℕ → ℚ :=
  let a : ℤ := pyTrunc (waveform (position - 1))
  let b : ℤ := pyTrunc (waveform (position + 2))
  fun s =>
    if s = position then waveform (position - 1) + 33 / 100 * ((b : ℚ) - (a : ℚ))
    else if s = position + 1 then waveform (position - 1) + 66 / 100 * ((b : ℚ) - (a : ℚ))
    else waveform s

/-- Candidate position for spike A, first case, new firmware
(`interpolate_spikes_pixel`), as an integer computation mirroring the
Python modulo on signed values. -/
def spikeAPositionCase1 (current_fc last_fc : ℤ) (k : ℕ) : ℤ :=
  let abspos : ℤ :=
    (N_CAPACITORS_CHANNEL : ℤ) + 1 - N_SAMPLES - 2 - last_fc
      + k * N_CAPACITORS_CHANNEL + N_CAPACITORS_PIXEL
  (abspos - current_fc + N_CAPACITORS_PIXEL) % (N_CAPACITORS_PIXEL : ℤ)

/-- Candidate position for spike A, second case, new firmware. -/
def spikeAPositionCase2 (current_fc last_fc : ℤ) (k : ℕ) : ℤ :=
  let abspos : ℤ := (N_SAMPLES : ℤ) - 1 + last_fc + k * N_CAPACITORS_CHANNEL
  (abspos - current_fc + N_CAPACITORS_PIXEL) % (N_CAPACITORS_PIXEL : ℤ)

/-- Candidate position for spike A, first case, old firmware
(`interpolate_spikes_pixel_old_firmware`). -/
def spikeAPositionCase1Old (current_fc last_fc : ℤ) (k : ℕ) : ℤ :=
  let abspos : ℤ :=
    (N_CAPACITORS_CHANNEL : ℤ) - N_SAMPLES - 2 - last_fc
      + k * N_CAPACITORS_CHANNEL + N_CAPACITORS_PIXEL
  (abspos - current_fc + N_CAPACITORS_PIXEL) % (N_CAPACITORS_PIXEL : ℤ)

/-- Candidate position for spike A, second case, old firmware. -/
def spikeAPositionCase2Old (current_fc last_fc : ℤ) (k : ℕ) : ℤ :=
  let abspos : ℤ := (N_SAMPLES : ℤ) - 2 + last_fc + k * N_CAPACITORS_CHANNEL
  (abspos - current_fc + N_CAPACITORS_PIXEL) % (N_CAPACITORS_PIXEL : ℤ)

/-- Guard of the first case in `interpolate_spikes_pixel` (new
firmware): position not at the sample boundaries, and the previous
event's last capacitor even and in the first half of its channel. -/
def spikeACase1Applies (current_fc last_fc : ℤ) (k : ℕ) : Prop :=
  2 < spikeAPositionCase1 current_fc last_fc k ∧
    spikeAPositionCase1 current_fc last_fc k < (N_SAMPLES : ℤ) - 2 ∧
    (last_fc + N_SAMPLES - 1) % (N_CAPACITORS_CHANNEL : ℤ) % 2 = 0 ∧
    (last_fc + N_SAMPLES - 1) % (N_CAPACITORS_CHANNEL : ℤ) ≤ (N_CAPACITORS_CHANNEL : ℤ) / 2 - 1

/-- Guard of the second case in `interpolate_spikes_pixel` (new
firmware): here the parity is tested on the unreduced last capacitor
`last_fc + N_SAMPLES - 1`. -/
def spikeACase2Applies (current_fc last_fc : ℤ) (k : ℕ) : Prop :=
  2 < spikeAPositionCase2 current_fc last_fc k ∧
    spikeAPositionCase2 current_fc last_fc k < (N_SAMPLES : ℤ) - 2 ∧
    (last_fc + N_SAMPLES - 1) % 2 = 0 ∧
    (last_fc + N_SAMPLES - 1) % (N_CAPACITORS_CHANNEL : ℤ) ≤ (N_CAPACITORS_CHANNEL : ℤ) / 2 - 1

/-- Guard of the first case in `interpolate_spikes_pixel_old_firmware`:
the bound on the reduced last capacitor is `N_CAPACITORS_CHANNEL/2 - 2`. -/
def spikeACase1OldApplies (current_fc last_fc : ℤ) (k : ℕ) : Prop :=
  2 < spikeAPositionCase1Old current_fc last_fc k ∧
    spikeAPositionCase1Old current_fc last_fc k < (N_SAMPLES : ℤ) - 2 ∧
    (last_fc + N_SAMPLES - 1) % (N_CAPACITORS_CHANNEL : ℤ) % 2 = 0 ∧
    (last_fc + N_SAMPLES - 1) % (N_CAPACITORS_CHANNEL : ℤ) ≤ (N_CAPACITORS_CHANNEL : ℤ) / 2 - 2

/-- Guard of the second case in `interpolate_spikes_pixel_old_firmware`. -/
def spikeACase2OldApplies (current_fc last_fc : ℤ) (k : ℕ) : Prop :=
  2 < spikeAPositionCase2Old current_fc last_fc k ∧
    spikeAPositionCase2Old current_fc last_fc k < (N_SAMPLES : ℤ) - 2 ∧
    (last_fc + N_SAMPLES - 1) % 2 = 0 ∧
    (last_fc + N_SAMPLES - 1) % (N_CAPACITORS_CHANNEL : ℤ) ≤ (N_CAPACITORS_CHANNEL : ℤ) / 2 - 1

end CtapipeIoLst

namespace CtapipeIoLst

/-! ## Time-lapse correction (`calibration.py`)

The waveform (float32 in the source) is modelled over `ℚ`; the
baseline power law `ped_time` is real-valued (a fractional real power
of the elapsed time evaluated in floating point), so it enters the
embedding as an arbitrary function parameter `pedTime : ℚ → ℚ`. The
uint64 clock arithmetic `time_now - prev` is modelled with an explicit
wrap `% 2 ^ 64`. -/

/-- `apply_timelapse_correction_pixel`, for one `(gain, pixel)` cell. -/
def applyTimelapseCorrectionPixel (pedTime : ℚ → ℚ) (first_capacitor time_now : ℕ)
    (last_readout_time : ℕ → ℕ) (waveform : ℕ → ℚ) : ℕ → ℚ :=
  fun sample =>
    if sample < N_SAMPLES then
      let capacitor := (first_capacitor + sample) % N_CAPACITORS_PIXEL
      let last_readout_time_cap := last_readout_time capacitor
      -- apply correction if last readout available
      if 0 < last_readout_time_cap then
        let time_diff : ℕ := (2 ^ 64 + time_now - last_readout_time_cap) % 2 ^ 64
        let time_diff_ms : ℚ := (time_diff : ℚ) / CLOCK_FREQUENCY_KHZ
        if time_diff_ms < 100 then
          -- prevent underflow of the unsigned int value
          waveform sample - min (pedTime time_diff_ms) (waveform sample)
        else waveform sample
      else waveform sample
    else waveform sample

/-! ## Last-readout-time update (`calibration.py`)

`update_last_readout_time` (and its old-firmware variant) stamp the
current clock counter into a set of capacitor cells; the set is
expressed as a decidable predicate over the cell index. -/

/-- The set of capacitor cells written by `update_last_readout_time`
(new firmware): the 40 cells of the read-out window, plus — for even
pixel-in-module — the extra ranges beyond the window. -/
def writesLastReadout (pixel_in_module first_capacitor c : ℕ) : Bool :=
  ((List.range N_SAMPLES).any
      (fun sample => (first_capacitor + sample) % N_CAPACITORS_PIXEL == c)) ||
  (pixel_in_module % 2 == 0 &&
    (decide (767 < first_capacitor % N_CAPACITORS_CHANNEL) &&
       decide (first_capacitor % N_CAPACITORS_CHANNEL < 1013) &&
       (List.range 12).any
         (fun i => (first_capacitor + N_CAPACITORS_CHANNEL + i) % N_CAPACITORS_PIXEL == c) ||
     decide (1013 ≤ first_capacitor % N_CAPACITORS_CHANNEL) &&
       (List.range ((first_capacitor / N_CAPACITORS_CHANNEL + 2) * N_CAPACITORS_CHANNEL
           - (first_capacitor + N_CAPACITORS_CHANNEL))).any
         (fun i => (first_capacitor + N_CAPACITORS_CHANNEL + i) % N_CAPACITORS_PIXEL == c)))

/-- The set of capacitor cells written by
`update_last_readout_time_old_firmware`: the window is shifted one
cell earlier (samples −1 … 38), and the first extra range starts at
`first_capacitor + 1023` under the window `766 < fc % 1024 < 1013`. -/
def writesLastReadoutOldFirmware (pixel_in_module first_capacitor c : ℕ) : Bool :=
  ((List.range N_SAMPLES).any
      (fun sample =>
        (first_capacitor + (N_CAPACITORS_PIXEL - 1) + sample) % N_CAPACITORS_PIXEL == c)) ||
  (pixel_in_module % 2 == 0 &&
    (decide (766 < first_capacitor % N_CAPACITORS_CHANNEL) &&
       decide (first_capacitor % N_CAPACITORS_CHANNEL < 1013) &&
       (List.range 12).any
         (fun i =>
           (first_capacitor + N_CAPACITORS_CHANNEL - 1 + i) % N_CAPACITORS_PIXEL == c) ||
     decide (1013 ≤ first_capacitor % N_CAPACITORS_CHANNEL) &&
       (List.range ((first_capacitor / N_CAPACITORS_CHANNEL + 2) * N_CAPACITORS_CHANNEL
           - (first_capacitor + N_CAPACITORS_CHANNEL))).any
         (fun i => (first_capacitor + N_CAPACITORS_CHANNEL + i) % N_CAPACITORS_PIXEL == c)))

/-- `update_last_readout_time` as a state transformer on one
`(gain, pixel)` row of the `last_readout_time` table. -/
def updateLastReadoutTime (pixel_in_module first_capacitor time_now : ℕ)
    (last_readout_time : ℕ → ℕ) : ℕ → ℕ :=
  fun c => if writesLastReadout pixel_in_module first_capacitor c then time_now
           else last_readout_time c

/-- `update_last_readout_time_old_firmware` as a state transformer. -/
def updateLastReadoutTimeOldFirmware (pixel_in_module first_capacitor time_now : ℕ)
    (last_readout_time : ℕ → ℕ) : ℕ → ℕ :=
  fun c => if writesLastReadoutOldFirmware pixel_in_module first_capacitor c then time_now
           else last_readout_time c

/-- One per-event update of a `(gain, pixel)` row, as performed by
`apply_timelapse_correction`: the firmware variant is selected by
`run_id > LAST_RUN_WITH_OLD_FIRMWARE`, and the stamped value is the
event's module clock counter. -/
structure ReadoutStep where
  useNewFirmware : Bool
  pixel_in_module : ℕ
  first_capacitor : ℕ
  time_now : ℕ

/-- Dispatch of `apply_timelapse_correction` between the two
last-readout update kernels. -/
def applyReadoutStep (last_readout_time : ℕ → ℕ) (st : ReadoutStep) : ℕ → ℕ :=
  if st.useNewFirmware then
    updateLastReadoutTime st.pixel_in_module st.first_capacitor st.time_now last_readout_time
  else
    updateLastReadoutTimeOldFirmware st.pixel_in_module st.first_capacitor
      st.time_now last_readout_time

/-- The successive values of cell `c` of a `(gain, pixel)` row across
a session: the initial all-zero state followed by the state after each
processed event. -/
def lastReadoutTrace (steps : List ReadoutStep) (c : ℕ) : List ℕ :=
  (steps.scanl applyReadoutStep (fun _ => 0)).map (fun lr => lr c)

end CtapipeIoLst

namespace CtapipeIoLst

/-! ## Gain-selected container filling (`__init__.py`)

`fill_r0r1_camera_container`, gain-selected branch, restricted to the
parts C6 is about: `selected_gain = np.where(has_high_gain, 0, 1)` per
hardware pixel, scattered into an array prefilled with −1 via
`reordered_selected_gain[expected_pixels] = selected_gain` (with numpy
fancy assignment, the last occurrence of a duplicated index wins). -/

namespace PixelStatus

def HIGH_GAIN_STORED : ℕ := 4
def LOW_GAIN_STORED : ℕ := 8

end PixelStatus

/-- `gain_selected = np.any(has_low_gain != has_high_gain)`. -/
def gainSelected (pixel_status : List ℕ) : Bool :=
  pixel_status.any fun st =>
    ((st &&& PixelStatus.LOW_GAIN_STORED != 0) : Bool)
      != (st &&& PixelStatus.HIGH_GAIN_STORED != 0)

/-- The pixel-status word that ends up in logical slot `p` after the
scatter `reordered[expected_pixels] = ...`: the status paired with the
last occurrence of `p` in `expected_pixels`, if any. -/
def lastStatusOf (expected_pixels pixel_status : List ℕ) (p : ℕ) : Option ℕ :=
  (((expected_pixels.zip pixel_status).filter fun q => q.1 == p).getLast?).map Prod.snd

/-- The emitted `selected_gain[p]`: −1 where no hardware pixel targets
slot `p`, else 0 if the status has HIGH_GAIN_STORED and 1 otherwise
(`np.where(has_high_gain, 0, 1)`). -/
def reorderedSelectedGain (expected_pixels pixel_status : List ℕ) (p : ℕ) : ℤ :=
  match lastStatusOf expected_pixels pixel_status p with
  | some st => if st &&& PixelStatus.HIGH_GAIN_STORED ≠ 0 then 0 else 1
  | none => -1

/-! ## MultiFiles construction (`multifiles.py`)

`MultiFiles.__init__` primes each file by reading its first event and
then its camera-configuration record, all inside one `try` block whose
`except StopIteration` drops the file; so a file contributes a camera
configuration exactly when it has at least one event and carries a
configuration record. Construction then fails on multiple distinct
`configuration_id`s, then on an empty configuration collection. -/

/-- A camera-configuration record; `data` stands for the payload
fields other than `configuration_id`, so distinct records with equal
run ids can be told apart. -/
structure CameraConfig where
  configuration_id : ℕ
  data : ℕ
deriving DecidableEq, Repr

/-- One input file, as `MultiFiles.__init__` sees it: its event
stream and its optional `CameraConfig` stream. -/
structure InputFile where
  events : List ℕ
  cameraConfig : Option CameraConfig
deriving DecidableEq, Repr

/-- The construction-time fatal errors of `MultiFiles.__init__`. -/
inductive MultiFilesError
  | noConfig
  | configMismatch
deriving DecidableEq, Repr

/-- The camera configurations collected by the construction scan, in
input order. A file whose event stream is empty raises StopIteration
while priming its first event, so its configuration (if any) is never
read. -/
def collectCameraConfigs (files : List InputFile) : List CameraConfig :=
  files.filterMap fun f =>
    match f.events with
    | [] => none
    | _ :: _ => f.cameraConfig

/-- The outcome of `MultiFiles.__init__` (for a non-empty path list):
either a fatal error or the adopted camera configuration. -/
def multiFilesInit (files : List InputFile) : Except MultiFilesError CameraConfig :=
  if 1 < (((collectCameraConfigs files).map CameraConfig.configuration_id).dedup).length then
    .error .configMismatch
  else
    match collectCameraConfigs files with
    | [] => .error .noConfig
    | c :: _ => .ok c

end CtapipeIoLst

namespace CtapipeIoLst

/-! ## MultiFiles k-way merge (`multifiles.py`)

Events are represented by their `event_id`. The merger state mirrors
the `_events` dict plus the not-yet-fetched part of each file's event
iterator: one `(held event, remaining events)` pair per still-active
input, in insertion order. -/

/-- The merger state. -/
abbrev MergeState : Type := List (ℕ × List ℕ)

/-- Advancing one input after its held event was returned: fetch the
next event, or drop the input on end-of-stream
(`except StopIteration: del self._events[min_path]`). -/
def popStream (rest : List ℕ) : MergeState :=
  match rest with
  | [] => []
  | e :: tail => [(e, tail)]

/-- The priming loop of `MultiFiles.__init__`: each input's first
event is fetched into `_events`; an input with no events drops out. -/
def initState (streams : List (List ℕ)) : MergeState :=
  streams.filterMap fun l =>
    match l with
    | [] => none
    | e :: rest => some (e, rest)

/-- `MultiFiles.next_event`: return the held event with the smallest
`event_id` (Python's `min` takes the first minimal item in insertion
order) and advance that input; `none` models `StopIteration` when no
held events remain. -/
def nextEvent : MergeState → Option (ℕ × MergeState)
  | [] => none
  | (e, rest) :: others =>
    match nextEvent others with
    | none => some (e, popStream rest)
    | some (e2, st2) =>
      if e ≤ e2 then some (e, popStream rest ++ others)
      else some (e2, (e, rest) :: st2)

/-- Total number of events still in the state. -/
def stateSize (st : MergeState) : ℕ := (st.map fun p => p.2.length + 1).sum

/-- All events still in the state, in state order. -/
def flattenState (st : MergeState) : List ℕ := (st.map fun p => p.1 :: p.2).flatten

/-- Repeated `next_event` calls until `StopIteration`; the fuel bounds
the number of calls and `stateSize` fuel is always enough. -/
def drainAux : ℕ → MergeState → List ℕ
  | 0, _ => []
  | fuel + 1, st =>
    match nextEvent st with
    | none => []
    | some (e, st') => e :: drainAux fuel st'

/-- The full output sequence of the merger. -/
def drain (st : MergeState) : List ℕ := drainAux (stateSize st) st

/-- `MultiFiles.__len__`: the sum of the per-stream event-table
lengths. -/
def multiFilesLen (streams : List (List ℕ)) : ℕ := (streams.map List.length).sum

/-- Every input's held event and remainder are in ascending order. -/
abbrev sortedState (st : MergeState) : Prop :=
  ∀ p ∈ st, List.Sorted (· ≤ ·) (p.1 :: p.2)

end CtapipeIoLst

namespace CtapipeIoLst

/-! ## Claim theorems -/

/-- **C5** — Event-type classification: for every 7-bit trigger-bits
value, SUBARRAY is returned iff a MONO/STEREO bit is set and no other
bit is; FLATFIELD iff the bits are exactly CALIBRATION or exactly
CALIBRATION|MONO; SKY_PEDESTAL iff exactly PEDESTAL; SINGLE_PE iff
exactly SINGLE_PE; UNKNOWN otherwise (in particular for SOFTWARE). -/
theorem eventType_characterisation (bits : ℕ) (h : bits < 128) :
    (eventTypeFromTriggerBits bits = .SUBARRAY ↔
      (bits &&& (TriggerBits.MONO ||| TriggerBits.STEREO) ≠ 0 ∧
        bits &&& (127 ^^^ (TriggerBits.MONO ||| TriggerBits.STEREO)) = 0)) ∧
    (eventTypeFromTriggerBits bits = .FLATFIELD ↔
      (bits = TriggerBits.CALIBRATION ∨
        bits = TriggerBits.CALIBRATION ||| TriggerBits.MONO)) ∧
    (eventTypeFromTriggerBits bits = .SKY_PEDESTAL ↔ bits = TriggerBits.PEDESTAL) ∧
    (eventTypeFromTriggerBits bits = .SINGLE_PE ↔ bits = TriggerBits.SINGLE_PE) ∧
    (eventTypeFromTriggerBits TriggerBits.SOFTWARE = .UNKNOWN) := by
  revert h
  revert bits
  decide

/-- Witness for C5 at the concrete input `bits = 5 = CALIBRATION|MONO`. -/
theorem eventType_characterisation_witness :
    5 < 128 ∧ (eventTypeFromTriggerBits 5 = .FLATFIELD ↔
      (5 = TriggerBits.CALIBRATION ∨ 5 = TriggerBits.CALIBRATION ||| TriggerBits.MONO)) :=
  ⟨by decide, (eventType_characterisation 5 (by decide)).2.1⟩

/-- **C4** — Pedestal subtraction equals per-capacitor modular
subtraction: for `fc < 4096`, the wrap-free slice access
`pedestal[fc : fc + 40]` performed by `subtract_pedestal` agrees with
the modular access `pedestal[(fc + s) % 4096]`, because the table
produced by `_get_drs4_pedestal_data` repeats its first 40 entries
after index 4095. -/
theorem subtractPedestal_modular (base : ℕ → ℤ) (offset : ℤ) (fc : ℕ) (w : ℕ → ℚ)
    (hfc : fc < N_CAPACITORS_PIXEL) :
    (∀ s < N_SAMPLES,
      subtractPedestalPixel fc (getDrs4PedestalData base offset) w s
        = w s - (getDrs4PedestalData base offset ((fc + s) % N_CAPACITORS_PIXEL) : ℚ)) ∧
    (∀ s < N_SAMPLES,
      getDrs4PedestalData base offset (N_CAPACITORS_PIXEL + s)
        = getDrs4PedestalData base offset s) := by
  have hN : N_CAPACITORS_PIXEL = 4096 := by norm_num [N_CAPACITORS_PIXEL, N_CAPACITORS_CHANNEL]
  have hS : N_SAMPLES = 40 := rfl
  constructor
  · intro s hs
    have key : getDrs4PedestalData base offset (fc + s)
        = getDrs4PedestalData base offset ((fc + s) % N_CAPACITORS_PIXEL) := by
      unfold getDrs4PedestalData
      rcases lt_or_le (fc + s) N_CAPACITORS_PIXEL with h | h
      · rw [Nat.mod_eq_of_lt h]
      · have h1 : (fc + s) % N_CAPACITORS_PIXEL = fc + s - N_CAPACITORS_PIXEL := by
          rw [hN] at h hfc ⊢; rw [hS] at hs; omega
        have h2 : ¬ fc + s < N_CAPACITORS_PIXEL := not_lt.mpr h
        have h3 : fc + s - N_CAPACITORS_PIXEL < N_CAPACITORS_PIXEL := by
          rw [hN] at hfc ⊢; rw [hS] at hs; omega
        rw [h1, if_neg h2, if_pos h3]
    rw [subtractPedestalPixel, if_pos hs, key]
  · intro s hs
    unfold getDrs4PedestalData
    have h1 : ¬ N_CAPACITORS_PIXEL + s < N_CAPACITORS_PIXEL := by omega
    have h2 : s < N_CAPACITORS_PIXEL := by rw [hN]; rw [hS] at hs; omega
    rw [if_neg h1, if_pos h2, Nat.add_sub_cancel_left]

/-- Witness for C4 at `fc = 4095`, evaluating the wrapped sample. -/
theorem subtractPedestal_modular_witness :
    (4095 < N_CAPACITORS_PIXEL) ∧
    (∀ s < N_SAMPLES,
      subtractPedestalPixel 4095 (getDrs4PedestalData (fun i => i) 400) (fun _ => 0) s
        = 0 - (getDrs4PedestalData (fun i => i) 400 ((4095 + s) % N_CAPACITORS_PIXEL) : ℚ)) :=
  ⟨by decide, (subtractPedestal_modular (fun i => i) 400 4095 (fun _ => 0) (by decide)).1⟩

section SpikeGuards

/-- The even-ness transfer through reduction mod 1024. -/
theorem emod_1024_emod_two (x : ℤ) : x % 1024 % 2 = x % 2 :=
  Int.emod_emod_of_dvd x (by norm_num)

/-- **C3** — Spike-A candidate qualification: in each of the two cases
of both firmware variants, interpolation is applied to the candidate
position iff `2 < pos < 38` and the previous event's last capacitor
`fc_prev + 39` is even and in the first half of its 1024-capacitor
channel (≤ 511 for the new firmware, ≤ 510 for the old; under
even-ness the code's `≤ 511` bound in the old second case coincides
with `≤ 510`). -/
theorem spikeA_qualification (current_fc last_fc : ℤ) (k : ℕ) :
    (spikeACase1Applies current_fc last_fc k ↔
      (2 < spikeAPositionCase1 current_fc last_fc k ∧
        spikeAPositionCase1 current_fc last_fc k < 38 ∧
        Even (last_fc + 39) ∧ (last_fc + 39) % 1024 ≤ 511)) ∧
    (spikeACase2Applies current_fc last_fc k ↔
      (2 < spikeAPositionCase2 current_fc last_fc k ∧
        spikeAPositionCase2 current_fc last_fc k < 38 ∧
        Even (last_fc + 39) ∧ (last_fc + 39) % 1024 ≤ 511)) ∧
    (spikeACase1OldApplies current_fc last_fc k ↔
      (2 < spikeAPositionCase1Old current_fc last_fc k ∧
        spikeAPositionCase1Old current_fc last_fc k < 38 ∧
        Even (last_fc + 39) ∧ (last_fc + 39) % 1024 ≤ 510)) ∧
    (spikeACase2OldApplies current_fc last_fc k ↔
      (2 < spikeAPositionCase2Old current_fc last_fc k ∧
        spikeAPositionCase2Old current_fc last_fc k < 38 ∧
        Even (last_fc + 39) ∧ (last_fc + 39) % 1024 ≤ 510)) := by
  have hS : (N_SAMPLES : ℤ) = 40 := by norm_num [N_SAMPLES]
  have hC : (N_CAPACITORS_CHANNEL : ℤ) = 1024 := by norm_num [N_CAPACITORS_CHANNEL]
  have hpar := emod_1024_emod_two (last_fc + 39)
  simp only [spikeACase1Applies, spikeACase2Applies, spikeACase1OldApplies,
    spikeACase2OldApplies, hS, hC, Int.even_iff]
  norm_num
  omega

/-- **C10** — Spike-stage bounds safety: whenever one of the (at most
eight) candidate positions passes its guard, every waveform index the
spike interpolation touches — `pos − 1`, `pos`, `pos + 1`, `pos + 2` —
lies within `[1, 39]`, hence inside the 40-sample window, for any pair
of first-capacitor values. -/
theorem spikeA_bounds_safe (current_fc last_fc : ℤ) (k : ℕ) (pos : ℤ)
    (h : (spikeACase1Applies current_fc last_fc k ∧
            pos = spikeAPositionCase1 current_fc last_fc k) ∨
         (spikeACase2Applies current_fc last_fc k ∧
            pos = spikeAPositionCase2 current_fc last_fc k) ∨
         (spikeACase1OldApplies current_fc last_fc k ∧
            pos = spikeAPositionCase1Old current_fc last_fc k) ∨
         (spikeACase2OldApplies current_fc last_fc k ∧
            pos = spikeAPositionCase2Old current_fc last_fc k)) :
    1 ≤ pos - 1 ∧ pos + 2 ≤ 39 := by
  have hS : (N_SAMPLES : ℤ) = 40 := by norm_num [N_SAMPLES]
  simp only [spikeACase1Applies, spikeACase2Applies, spikeACase1OldApplies,
    spikeACase2OldApplies, hS] at h
  rcases h with ⟨⟨h1, h2, -, -⟩, rfl⟩ | ⟨⟨h1, h2, -, -⟩, rfl⟩ |
    ⟨⟨h1, h2, -, -⟩, rfl⟩ | ⟨⟨h1, h2, -, -⟩, rfl⟩ <;> omega

/-- Witness for C10: the new-firmware first case at
`current_fc = 972`, `last_fc = 1`, `k = 0` yields position 10. -/
theorem spikeA_bounds_safe_witness :
    ((spikeACase1Applies 972 1 0 ∧ (10 : ℤ) = spikeAPositionCase1 972 1 0) ∨
     (spikeACase2Applies 972 1 0 ∧ (10 : ℤ) = spikeAPositionCase2 972 1 0) ∨
     (spikeACase1OldApplies 972 1 0 ∧ (10 : ℤ) = spikeAPositionCase1Old 972 1 0) ∨
     (spikeACase2OldApplies 972 1 0 ∧ (10 : ℤ) = spikeAPositionCase2Old 972 1 0)) ∧
    (1 ≤ (10 : ℤ) - 1 ∧ (10 : ℤ) + 2 ≤ 39) := by
  have hguard : spikeACase1Applies 972 1 0 ∧ (10 : ℤ) = spikeAPositionCase1 972 1 0 := by
    unfold spikeACase1Applies spikeAPositionCase1
    decide
  exact ⟨Or.inl hguard, spikeA_bounds_safe 972 1 0 10 (Or.inl hguard)⟩

end SpikeGuards

/-- **C8 counterexample** — the claimed interpolation formula
`w[pos] = w[pos−1] + 0.33 · (w[pos+2] − w[pos−1])` fails on the code:
the source truncates both neighbour values with `int(...)` before
taking the difference, so for `w[pos−1] = 0`, `w[pos+2] = 9/10` the
code leaves `w[pos] = 0` while the claimed value is `297/1000`. -/
theorem interpolateSpikeA_claim_counterexample :
    interpolateSpikeA (fun s => if s = 12 then (9 : ℚ)/10 else 0) 10 10
      ≠ (fun s => if s = 12 then (9 : ℚ)/10 else 0) 9
        + 33/100 * ((fun s => if s = 12 then (9 : ℚ)/10 else 0) 12
          - (fun s => if s = 12 then (9 : ℚ)/10 else 0) 9) := by
  norm_num [interpolateSpikeA, pyTrunc]

/-- **C8 (amended)** — Spike-A interpolation values: for every
position, the two affected samples become
`w[pos] = w[pos−1] + 0.33 · (int(w[pos+2]) − int(w[pos−1]))` and
`w[pos+1] = w[pos−1] + 0.66 · (int(w[pos+2]) − int(w[pos−1]))`, where
`int` is Python's truncation toward zero and the neighbour values are
those before the overwrite; all other samples are unchanged. -/
theorem interpolateSpikeA_values (w : ℕ → ℚ) (pos : ℕ) :
    interpolateSpikeA w pos pos
      = w (pos - 1) + 33/100 * ((pyTrunc (w (pos + 2)) : ℚ) - (pyTrunc (w (pos - 1)) : ℚ)) ∧
    interpolateSpikeA w pos (pos + 1)
      = w (pos - 1) + 66/100 * ((pyTrunc (w (pos + 2)) : ℚ) - (pyTrunc (w (pos - 1)) : ℚ)) ∧
    ∀ s, s ≠ pos → s ≠ pos + 1 → interpolateSpikeA w pos s = w s := by
  refine ⟨?_, ?_, ?_⟩
  · simp [interpolateSpikeA]
  · have h : pos + 1 ≠ pos := by omega
    simp [interpolateSpikeA, h]
  · intro s h1 h2
    simp [interpolateSpikeA, h1, h2]

/-- **C1** — Time-lapse baseline correction: for every sample
`s < 40`, with capacitor `c = (fc + s) % 4096` and
`prev = last_readout c`, the sample is replaced by
`max (old − pedTime dt_ms) 0` — clamped at zero — exactly when
`prev > 0` and `dt_ms = (t_now − prev) / 133000 < 100`, and is left
unchanged otherwise. Stated for an arbitrary baseline function
`pedTime`, of which the source's power law
`32.99 · dt^(−0.22) − 11.9` is an instance. -/
theorem timelapse_pixel_correct (pedTime : ℚ → ℚ) (fc t_now : ℕ) (lr : ℕ → ℕ) (w : ℕ → ℚ)
    (h64 : t_now < 2 ^ 64) (hprev : ∀ c, lr c ≤ t_now) (s : ℕ) (hs : s < N_SAMPLES) :
    applyTimelapseCorrectionPixel pedTime fc t_now lr w s
      = if 0 < lr ((fc + s) % N_CAPACITORS_PIXEL) ∧
            ((t_now - lr ((fc + s) % N_CAPACITORS_PIXEL) : ℕ) : ℚ) / 133000 < 100
        then
          max (w s
            - pedTime (((t_now - lr ((fc + s) % N_CAPACITORS_PIXEL) : ℕ) : ℚ) / 133000)) 0
        else w s := by
  have hwrap : (2 ^ 64 + t_now - lr ((fc + s) % N_CAPACITORS_PIXEL)) % 2 ^ 64
      = t_now - lr ((fc + s) % N_CAPACITORS_PIXEL) := by
    have := hprev ((fc + s) % N_CAPACITORS_PIXEL)
    omega
  have hclock : CLOCK_FREQUENCY_KHZ = 133000 := rfl
  simp only [applyTimelapseCorrectionPixel, if_pos hs, hwrap, hclock]
  by_cases h1 : 0 < lr ((fc + s) % N_CAPACITORS_PIXEL)
  · by_cases h2 : ((t_now - lr ((fc + s) % N_CAPACITORS_PIXEL) : ℕ) : ℚ) / 133000 < 100
    · rw [if_pos h1, if_pos h2, if_pos ⟨h1, h2⟩]
      rcases le_total
          (pedTime (((t_now - lr ((fc + s) % N_CAPACITORS_PIXEL) : ℕ) : ℚ) / 133000)) (w s)
        with h | h
      · rw [min_eq_left h, max_eq_left (by linarith)]
      · rw [min_eq_right h, max_eq_right (by linarith), sub_self]
    · rw [if_pos h1, if_neg h2, if_neg (fun hc => h2 hc.2)]
  · rw [if_neg h1, if_neg (fun hc => h1 hc.1)]

/-- Witness for C1: `prev = 335000`, `t_now = 1000000` gives
`dt_ms = 5`; with a constant baseline of 5 the sample 10 becomes 5. -/
theorem timelapse_pixel_correct_witness :
    (1000000 < 2 ^ 64) ∧ (∀ c : ℕ, (fun _ : ℕ => 335000) c ≤ 1000000) ∧ (0 < N_SAMPLES) ∧
    applyTimelapseCorrectionPixel (fun _ => 5) 0 1000000 (fun _ => 335000) (fun _ => 10) 0
      = 5 := by
  refine ⟨by norm_num, fun c => by norm_num, by norm_num [N_SAMPLES], ?_⟩
  rw [timelapse_pixel_correct (fun _ => 5) 0 1000000 (fun _ => 335000) (fun _ => 10)
    (by norm_num) (fun c => by norm_num) 0 (by norm_num [N_SAMPLES])]
  norm_num

section LastReadoutMonotone

/-- A single update writes either the event's clock counter or leaves
the cell unchanged. -/
theorem applyReadoutStep_cases (lr : ℕ → ℕ) (st : ReadoutStep) (c : ℕ) :
    applyReadoutStep lr st c = st.time_now ∨ applyReadoutStep lr st c = lr c := by
  unfold applyReadoutStep updateLastReadoutTime updateLastReadoutTimeOldFirmware
  by_cases h : st.useNewFirmware = true
  · rw [if_pos h]
    by_cases hw : writesLastReadout st.pixel_in_module st.first_capacitor c = true
    · left; simp [hw]
    · right; simp [hw]
  · rw [if_neg h]
    by_cases hw : writesLastReadoutOldFirmware st.pixel_in_module st.first_capacitor c = true
    · left; simp [hw]
    · right; simp [hw]

/-- The head of a mapped scanl is the seed's image. -/
theorem head_scanl_map {α β γ : Type} (f : β → α → β) (g : β → γ) (b : β) (l : List α) :
    ((List.scanl f b l).map g).head? = some (g b) := by
  cases l <;> simp [List.scanl]

/-- Auxiliary induction for C7: from any state bounded by the next
event's clock counter, the per-cell trace is non-decreasing when the
clock counters are. -/
theorem chain_trace_aux (c : ℕ) :
    ∀ (steps : List ReadoutStep) (lr : ℕ → ℕ),
      (steps.map ReadoutStep.time_now).Chain' (· ≤ ·) →
      (∀ s0 ∈ steps.head?, lr c ≤ s0.time_now) →
      List.Chain' (· ≤ ·) ((steps.scanl applyReadoutStep lr).map (fun f => f c)) := by
  intro steps
  induction steps with
  | nil => intro lr _ _; simp [List.scanl]
  | cons st rest ih =>
    intro lr htimes hhead
    have hhead' : lr c ≤ st.time_now := hhead st (by simp)
    rw [List.scanl_cons, List.singleton_append, List.map_cons]
    refine List.chain'_cons'.mpr ⟨?_, ?_⟩
    · intro y hy
      rw [head_scanl_map] at hy
      cases hy
      rcases applyReadoutStep_cases lr st c with h | h <;> rw [h]
      exact hhead'
    · have htimes' := htimes
      rw [List.map_cons] at htimes'
      refine ih (applyReadoutStep lr st) (List.Chain'.tail htimes') ?_
      intro s1 hs1
      have hst : st.time_now ≤ s1.time_now := by
        have := (List.chain'_cons'.mp htimes').1 s1.time_now
        apply this
        rw [List.head?_map, hs1]
        rfl
      rcases applyReadoutStep_cases lr st c with h | h <;> rw [h]
      · exact hst
      · exact le_trans hhead' hst

/-- **C7** — Last-readout monotonicity: for a fixed (gain, pixel,
capacitor) cell, the value starts at zero and — provided the events'
clock counters are themselves non-decreasing, every write storing the
current event's counter — the successive values of the cell across
the session never decrease, in either firmware variant. -/
theorem lastReadout_monotone (steps : List ReadoutStep) (c : ℕ)
    (htimes : (steps.map ReadoutStep.time_now).Chain' (· ≤ ·)) :
    (lastReadoutTrace steps c).head? = some 0 ∧
    List.Chain' (· ≤ ·) (lastReadoutTrace steps c) := by
  constructor
  · exact head_scanl_map _ _ _ _
  · exact chain_trace_aux c steps (fun _ => 0) htimes (fun s0 _ => Nat.zero_le _)

/-- Witness for C7: two events with counters 5 then 7, one per
firmware variant, observed at capacitor cell 3. -/
theorem lastReadout_monotone_witness :
    (([⟨true, 0, 0, 5⟩, ⟨false, 1, 100, 7⟩] : List ReadoutStep).map
        ReadoutStep.time_now).Chain' (· ≤ ·) ∧
    ((lastReadoutTrace [⟨true, 0, 0, 5⟩, ⟨false, 1, 100, 7⟩] 3).head? = some 0 ∧
      List.Chain' (· ≤ ·) (lastReadoutTrace [⟨true, 0, 0, 5⟩, ⟨false, 1, 100, 7⟩] 3)) :=
  ⟨by simp [List.chain'_cons], lastReadout_monotone [⟨true, 0, 0, 5⟩, ⟨false, 1, 100, 7⟩] 3
    (by simp [List.chain'_cons])⟩

end LastReadoutMonotone

section GainSelection

/-- A status word delivered by `lastStatusOf` comes from the
`pixel_status` list. -/
theorem lastStatusOf_mem {expected_pixels pixel_status : List ℕ} {p st : ℕ}
    (h : lastStatusOf expected_pixels pixel_status p = some st) : st ∈ pixel_status := by
  unfold lastStatusOf at h
  rcases Option.map_eq_some'.mp h with ⟨q, hq, rfl⟩
  have hqmem : q ∈ (expected_pixels.zip pixel_status).filter (fun q => q.1 == p) := by
    rcases List.mem_getLast?_eq_getLast (Option.mem_def.mpr hq) with ⟨hne, rfl⟩
    exact List.getLast_mem hne
  exact (List.of_mem_zip (List.mem_filter.mp hqmem).1).2

/-- **C6 counterexample** — the claimed equivalence
`selected_gain[p] = 0 ⇔ HIGH_GAIN_STORED ∧ ¬LOW_GAIN_STORED` fails on
the code: for pixel statuses `[12, 4]` (pixel 0 has both gain bits
set, pixel 1 only high gain, so the event counts as gain-selected) and
`expected_pixels = [0, 1]`, the code emits `selected_gain[0] = 0`
although pixel 0 also has LOW_GAIN_STORED set. -/
theorem selectedGain_claim_counterexample :
    gainSelected [12, 4] = true ∧
    reorderedSelectedGain [0, 1] [12, 4] 0 = 0 ∧
    ¬(12 &&& PixelStatus.HIGH_GAIN_STORED ≠ 0 ∧ 12 &&& PixelStatus.LOW_GAIN_STORED = 0) := by
  decide

/-- **C6 (amended)** — Gain-selection container: assuming no pixel
status has both gain bits set (true of genuinely gain-selected data;
in general the code only consults the high-gain bit),
`selected_gain[p] = 0` iff slot `p` receives a status word with
HIGH_GAIN_STORED set and LOW_GAIN_STORED clear; `selected_gain[p] = −1`
iff no hardware pixel targets slot `p`; and the emitted values always
lie in `{0, 1, −1}`. -/
theorem selectedGain_characterisation (expected_pixels pixel_status : List ℕ) (p : ℕ)
    (hnoboth : ∀ st ∈ pixel_status,
      ¬(st &&& PixelStatus.HIGH_GAIN_STORED ≠ 0 ∧ st &&& PixelStatus.LOW_GAIN_STORED ≠ 0)) :
    (reorderedSelectedGain expected_pixels pixel_status p = 0 ↔
      ∃ st, lastStatusOf expected_pixels pixel_status p = some st ∧
        st &&& PixelStatus.HIGH_GAIN_STORED ≠ 0 ∧ st &&& PixelStatus.LOW_GAIN_STORED = 0) ∧
    (reorderedSelectedGain expected_pixels pixel_status p = -1 ↔
      lastStatusOf expected_pixels pixel_status p = none) ∧
    (reorderedSelectedGain expected_pixels pixel_status p = 0 ∨
      reorderedSelectedGain expected_pixels pixel_status p = 1 ∨
      reorderedSelectedGain expected_pixels pixel_status p = -1) := by
  cases hls : lastStatusOf expected_pixels pixel_status p with
  | none =>
    have hval : reorderedSelectedGain expected_pixels pixel_status p = -1 := by
      unfold reorderedSelectedGain
      rw [hls]
    rw [hval]
    refine ⟨by simp, by simp, by simp⟩
  | some st =>
    have hnb := hnoboth st (lastStatusOf_mem hls)
    have hval : reorderedSelectedGain expected_pixels pixel_status p
        = if st &&& PixelStatus.HIGH_GAIN_STORED ≠ 0 then 0 else 1 := by
      unfold reorderedSelectedGain
      rw [hls]
    rw [hval]
    by_cases hh : st &&& PixelStatus.HIGH_GAIN_STORED ≠ 0
    · have hlow : st &&& PixelStatus.LOW_GAIN_STORED = 0 := by
        by_contra hl
        exact hnb ⟨hh, hl⟩
      rw [if_pos hh]
      refine ⟨⟨fun _ => ⟨st, rfl, hh, hlow⟩, fun _ => rfl⟩, by simp, Or.inl rfl⟩
    · rw [if_neg hh]
      refine ⟨⟨fun h01 => absurd h01 (by norm_num), ?_⟩, by simp, Or.inr (Or.inl rfl)⟩
      rintro ⟨st', hst', hh', -⟩
      cases Option.some.inj hst'
      exact absurd hh' hh

/-- Witness for C6's amended theorem at a two-pixel example with one
gain-selected and one broken pixel. -/
theorem selectedGain_characterisation_witness :
    (∀ st ∈ [4, 0],
      ¬(st &&& PixelStatus.HIGH_GAIN_STORED ≠ 0 ∧ st &&& PixelStatus.LOW_GAIN_STORED ≠ 0)) ∧
    (reorderedSelectedGain [0, 1] [4, 0] 0 = 0 ↔
      ∃ st, lastStatusOf [0, 1] [4, 0] 0 = some st ∧
        st &&& PixelStatus.HIGH_GAIN_STORED ≠ 0 ∧ st &&& PixelStatus.LOW_GAIN_STORED = 0) :=
  ⟨by decide, (selectedGain_characterisation [0, 1] [4, 0] 0 (by decide)).1⟩

end GainSelection

section MultiFilesConstruction

/-- Deduplicating a constant list leaves at most one element. -/
theorem dedup_length_le_one {l : List ℕ} {v : ℕ} (h : ∀ x ∈ l, x = v) :
    l.dedup.length ≤ 1 := by
  induction l with
  | nil => simp
  | cons a t ih =>
    have ha : a = v := h a (by simp)
    by_cases hmem : a ∈ t
    · rw [List.dedup_cons_of_mem hmem]
      exact ih fun x hx => h x (by simp [hx])
    · have ht : t = [] := by
        cases t with
        | nil => rfl
        | cons b t' =>
          exfalso
          apply hmem
          have hb : b = v := h b (by simp)
          rw [ha, ← hb]
          exact List.mem_cons_self b t'
      subst ht
      simp

/-- The construction scan collects nothing iff every input either has
no event (its configuration record is then never reached) or carries
no configuration record. -/
theorem collect_eq_nil_iff (files : List InputFile) :
    collectCameraConfigs files = [] ↔
      ∀ f ∈ files, f.events = [] ∨ f.cameraConfig = none := by
  unfold collectCameraConfigs
  rw [List.filterMap_eq_nil_iff]
  constructor
  · intro h f hf
    have hfn := h f hf
    cases he : f.events with
    | nil => exact Or.inl rfl
    | cons e t =>
      right
      rw [he] at hfn
      exact hfn
  · intro h f hf
    rcases h f hf with he | hc
    · rw [he]
    · cases f.events <;> simp [hc]

/-- **C9** — Merger construction errors: over a non-empty input list,
construction fails with NoConfig exactly when the scan finds no camera
configuration in any input, fails with ConfigMismatch exactly when the
configurations found carry more than one distinct `configuration_id`,
and otherwise succeeds, adopting the first configuration encountered. -/
theorem multiFilesInit_spec (files : List InputFile) (hne : files ≠ []) :
    (multiFilesInit files = .error .noConfig ↔
      ∀ f ∈ files, f.events = [] ∨ f.cameraConfig = none) ∧
    (multiFilesInit files = .error .configMismatch ↔
      1 < (((collectCameraConfigs files).map CameraConfig.configuration_id).dedup).length) ∧
    (∀ c cs, collectCameraConfigs files = c :: cs →
      (∀ c' ∈ cs, c'.configuration_id = c.configuration_id) →
      multiFilesInit files = .ok c) := by
  refine ⟨?_, ?_, ?_⟩
  · rw [← collect_eq_nil_iff]
    unfold multiFilesInit
    by_cases hif :
        1 < (((collectCameraConfigs files).map CameraConfig.configuration_id).dedup).length
    · rw [if_pos hif]
      constructor
      · intro h
        exact absurd (Except.error.inj h) (by intro h'; cases h')
      · intro h
        rw [h] at hif
        simp at hif
    · rw [if_neg hif]
      cases hcfg : collectCameraConfigs files with
      | nil => simp
      | cons c cs => simp
  · unfold multiFilesInit
    by_cases hif :
        1 < (((collectCameraConfigs files).map CameraConfig.configuration_id).dedup).length
    · rw [if_pos hif]
      exact ⟨fun _ => hif, fun _ => rfl⟩
    · rw [if_neg hif]
      refine ⟨fun h => ?_, fun h => absurd h hif⟩
      cases hcfg : collectCameraConfigs files with
      | nil => rw [hcfg] at h; exact absurd (Except.error.inj h) (by intro h'; cases h')
      | cons c cs => rw [hcfg] at h; cases h
  · intro c cs hcfg hsame
    have hall : ∀ x ∈ (collectCameraConfigs files).map CameraConfig.configuration_id,
        x = c.configuration_id := by
      intro x hx
      rcases List.mem_map.mp hx with ⟨c', hc', rfl⟩
      rw [hcfg] at hc'
      rcases List.mem_cons.mp hc' with rfl | hmem
      · rfl
      · exact hsame c' hmem
    have hle := dedup_length_le_one hall
    unfold multiFilesInit
    rw [if_neg (by omega), hcfg]

/-- Witness for C9 at a single input with one event and a
configuration record: construction does not fail with NoConfig. -/
theorem multiFilesInit_spec_witness :
    (([⟨[1], some ⟨7, 0⟩⟩] : List InputFile) ≠ []) ∧
    (multiFilesInit [⟨[1], some ⟨7, 0⟩⟩] = .error .noConfig ↔
      ∀ f ∈ ([⟨[1], some ⟨7, 0⟩⟩] : List InputFile),
        f.events = [] ∨ f.cameraConfig = none) :=
  ⟨by decide, (multiFilesInit_spec [⟨[1], some ⟨7, 0⟩⟩] (by decide)).1⟩

end MultiFilesConstruction

section Merge

/-- `next_event` signals `StopIteration` exactly on the empty state. -/
theorem nextEvent_eq_none_iff (st : MergeState) : nextEvent st = none ↔ st = [] := by
  cases st with
  | nil => simp [nextEvent]
  | cons p others =>
    obtain ⟨e, rest⟩ := p
    cases hoth : nextEvent others with
    | none => simp [nextEvent, hoth]
    | some q =>
      obtain ⟨e2, st2⟩ := q
      by_cases hle : e ≤ e2
      · simp [nextEvent, hoth, hle]
      · simp [nextEvent, hoth, hle]

theorem flattenState_popStream (rest : List ℕ) : flattenState (popStream rest) = rest := by
  cases rest <;> simp [popStream, flattenState]

theorem flattenState_cons (e : ℕ) (rest : List ℕ) (others : MergeState) :
    flattenState ((e, rest) :: others) = e :: (rest ++ flattenState others) := by
  simp [flattenState]

theorem flattenState_append (s1 s2 : MergeState) :
    flattenState (s1 ++ s2) = flattenState s1 ++ flattenState s2 := by
  simp [flattenState]

theorem stateSize_eq_length_flatten (st : MergeState) :
    stateSize st = (flattenState st).length := by
  induction st with
  | nil => rfl
  | cons p others ih =>
    obtain ⟨e, rest⟩ := p
    rw [flattenState_cons]
    simp [stateSize, List.map_cons] at ih ⊢
    omega

/-- The event returned by `next_event` is removed from the state and
nothing else changes, up to permutation. -/
theorem nextEvent_perm {st : MergeState} {e : ℕ} {st' : MergeState}
    (h : nextEvent st = some (e, st')) :
    List.Perm (flattenState st) (e :: flattenState st') := by
  induction st generalizing e st' with
  | nil => simp [nextEvent] at h
  | cons p others ih =>
    obtain ⟨e1, rest⟩ := p
    cases hoth : nextEvent others with
    | none =>
      simp only [nextEvent, hoth] at h
      simp only [Option.some.injEq, Prod.mk.injEq] at h
      obtain ⟨rfl, rfl⟩ := h
      have hothers : others = [] := (nextEvent_eq_none_iff others).mp hoth
      subst hothers
      rw [flattenState_cons, flattenState_popStream]
      simp [flattenState]
    | some q =>
      obtain ⟨e2, st2⟩ := q
      simp only [nextEvent, hoth] at h
      by_cases hle : e1 ≤ e2
      · rw [if_pos hle] at h
        simp only [Option.some.injEq, Prod.mk.injEq] at h
        obtain ⟨rfl, rfl⟩ := h
        rw [flattenState_cons, flattenState_append, flattenState_popStream]
      · rw [if_neg hle] at h
        simp only [Option.some.injEq, Prod.mk.injEq] at h
        obtain ⟨rfl, rfl⟩ := h
        have hperm := ih hoth
        rw [flattenState_cons, flattenState_cons]
        exact ((List.Perm.cons e1 (List.Perm.append_left rest hperm)).trans
          (List.Perm.cons e1 List.perm_middle)).trans (List.Perm.swap e2 e1 _)

theorem nextEvent_size {st : MergeState} {e : ℕ} {st' : MergeState}
    (h : nextEvent st = some (e, st')) : stateSize st = stateSize st' + 1 := by
  have hlen := (nextEvent_perm h).length_eq
  rw [stateSize_eq_length_flatten, stateSize_eq_length_flatten, hlen]
  simp

/-- The returned event is minimal among all events still present. -/
theorem nextEvent_min {st : MergeState} {e : ℕ} {st' : MergeState}
    (h : nextEvent st = some (e, st')) (hs : sortedState st) :
    ∀ x ∈ flattenState st, e ≤ x := by
  induction st generalizing e st' with
  | nil => simp [nextEvent] at h
  | cons p others ih =>
    obtain ⟨e1, rest⟩ := p
    have hsorted1 : List.Sorted (· ≤ ·) (e1 :: rest) := hs (e1, rest) (by simp)
    have hsothers : sortedState others := fun q hq => hs q (by simp [hq])
    have hhead : ∀ x ∈ rest, e1 ≤ x := (List.sorted_cons.mp hsorted1).1
    cases hoth : nextEvent others with
    | none =>
      simp only [nextEvent, hoth] at h
      simp only [Option.some.injEq, Prod.mk.injEq] at h
      obtain ⟨rfl, rfl⟩ := h
      have hothers : others = [] := (nextEvent_eq_none_iff others).mp hoth
      subst hothers
      intro x hx
      rw [flattenState_cons] at hx
      rcases List.mem_cons.mp hx with rfl | hx'
      · exact le_refl x
      · simp only [flattenState, List.map_nil, List.flatten_nil, List.append_nil] at hx'
        exact hhead x hx'
    | some q =>
      obtain ⟨e2, st2⟩ := q
      simp only [nextEvent, hoth] at h
      have hmin2 : ∀ x ∈ flattenState others, e2 ≤ x := ih hoth hsothers
      by_cases hle : e1 ≤ e2
      · rw [if_pos hle] at h
        simp only [Option.some.injEq, Prod.mk.injEq] at h
        obtain ⟨rfl, rfl⟩ := h
        intro x hx
        rw [flattenState_cons] at hx
        rcases List.mem_cons.mp hx with rfl | hx'
        · exact le_refl x
        · rcases List.mem_append.mp hx' with hr | ho
          · exact hhead x hr
          · exact le_trans hle (hmin2 x ho)
      · rw [if_neg hle] at h
        simp only [Option.some.injEq, Prod.mk.injEq] at h
        obtain ⟨rfl, rfl⟩ := h
        have he2e1 : e2 ≤ e1 := le_of_not_le hle
        intro x hx
        rw [flattenState_cons] at hx
        rcases List.mem_cons.mp hx with rfl | hx'
        · exact he2e1
        · rcases List.mem_append.mp hx' with hr | ho
          · exact le_trans he2e1 (hhead x hr)
          · exact hmin2 x ho

theorem sortedState_popStream {rest : List ℕ} (h : List.Sorted (· ≤ ·) rest) :
    sortedState (popStream rest) := by
  cases rest with
  | nil => intro q hq; simp [popStream] at hq
  | cons a t =>
    intro q hq
    simp only [popStream, List.mem_singleton] at hq
    subst hq
    exact h

/-- Advancing the merger preserves per-input sortedness. -/
theorem nextEvent_sorted {st : MergeState} {e : ℕ} {st' : MergeState}
    (h : nextEvent st = some (e, st')) (hs : sortedState st) : sortedState st' := by
  induction st generalizing e st' with
  | nil => simp [nextEvent] at h
  | cons p others ih =>
    obtain ⟨e1, rest⟩ := p
    have hsorted1 : List.Sorted (· ≤ ·) (e1 :: rest) := hs (e1, rest) (by simp)
    have hsothers : sortedState others := fun q hq => hs q (by simp [hq])
    cases hoth : nextEvent others with
    | none =>
      simp only [nextEvent, hoth] at h
      simp only [Option.some.injEq, Prod.mk.injEq] at h
      obtain ⟨rfl, rfl⟩ := h
      exact sortedState_popStream hsorted1.of_cons
    | some q =>
      obtain ⟨e2, st2⟩ := q
      simp only [nextEvent, hoth] at h
      by_cases hle : e1 ≤ e2
      · rw [if_pos hle] at h
        simp only [Option.some.injEq, Prod.mk.injEq] at h
        obtain ⟨rfl, rfl⟩ := h
        intro q hq
        rcases List.mem_append.mp hq with hpop | ho
        · exact sortedState_popStream hsorted1.of_cons q hpop
        · exact hsothers q ho
      · rw [if_neg hle] at h
        simp only [Option.some.injEq, Prod.mk.injEq] at h
        obtain ⟨rfl, rfl⟩ := h
        intro q hq
        rcases List.mem_cons.mp hq with rfl | hq'
        · exact hsorted1
        · exact ih hoth hsothers q hq'

/-- Draining emits each remaining event exactly once. -/
theorem drainAux_perm :
    ∀ (fuel : ℕ) (st : MergeState), stateSize st ≤ fuel →
      List.Perm (drainAux fuel st) (flattenState st) := by
  intro fuel
  induction fuel with
  | zero =>
    intro st hsize
    have h0 : (flattenState st).length = 0 := by
      rw [← stateSize_eq_length_flatten]; omega
    rw [List.length_eq_zero.mp h0]
    simp [drainAux]
  | succ n ih =>
    intro st hsize
    cases hne : nextEvent st with
    | none =>
      have hst : st = [] := (nextEvent_eq_none_iff st).mp hne
      subst hst
      simp [drainAux, nextEvent, flattenState]
    | some q =>
      obtain ⟨e, st'⟩ := q
      have hsz := nextEvent_size hne
      have heq : drainAux (n + 1) st = e :: drainAux n st' := by
        simp only [drainAux, hne]
      rw [heq]
      exact (List.Perm.cons e (ih st' (by omega))).trans (nextEvent_perm hne).symm

/-- Draining a state of per-input-sorted streams yields a sorted
sequence. -/
theorem drainAux_sorted :
    ∀ (fuel : ℕ) (st : MergeState), stateSize st ≤ fuel → sortedState st →
      List.Sorted (· ≤ ·) (drainAux fuel st) := by
  intro fuel
  induction fuel with
  | zero => intro st _ _; simp [drainAux]
  | succ n ih =>
    intro st hsize hsorted
    cases hne : nextEvent st with
    | none => simp only [drainAux, hne]; exact List.sorted_nil
    | some q =>
      obtain ⟨e, st'⟩ := q
      have hsz := nextEvent_size hne
      have heq : drainAux (n + 1) st = e :: drainAux n st' := by
        simp only [drainAux, hne]
      rw [heq, List.sorted_cons]
      constructor
      · intro b hb
        have hb' : b ∈ flattenState st' :=
          (drainAux_perm n st' (by omega)).mem_iff.mp hb
        have hbst : b ∈ flattenState st :=
          (nextEvent_perm hne).mem_iff.mpr (List.mem_cons_of_mem e hb')
        exact nextEvent_min hne hsorted b hbst
      · exact ih st' (by omega) (nextEvent_sorted hne hsorted)

theorem flattenState_initState (streams : List (List ℕ)) :
    flattenState (initState streams) = streams.flatten := by
  induction streams with
  | nil => rfl
  | cons l rest ih =>
    cases l with
    | nil =>
      simp only [initState, List.filterMap_cons] at ih ⊢
      simpa using ih
    | cons e t =>
      simp only [initState, List.filterMap_cons] at ih ⊢
      rw [List.flatten_cons, ← ih]
      exact flattenState_cons e t _

theorem sortedState_initState {streams : List (List ℕ)}
    (h : ∀ l ∈ streams, l.Sorted (· ≤ ·)) : sortedState (initState streams) := by
  intro q hq
  unfold initState at hq
  rcases List.mem_filterMap.mp hq with ⟨l, hl, hfl⟩
  cases l with
  | nil => simp at hfl
  | cons e t =>
    simp only [Option.some.injEq] at hfl
    subst hfl
    exact h (e :: t) hl

theorem flattenState_eq_nil_iff (st : MergeState) : flattenState st = [] ↔ st = [] := by
  cases st with
  | nil => simp [flattenState]
  | cons p others =>
    obtain ⟨e, rest⟩ := p
    rw [flattenState_cons]
    simp

/-- **C2** — MultiFiles k-way merge: for every non-empty collection of
input streams each in ascending `event_id` order, the sequence of
`next_event` results is a permutation of all input events — every
input is drained to exhaustion — in ascending `event_id` order; its
length (and `len()`) is the sum of the per-stream lengths; and
`StopIteration` is raised exactly when no events remain. -/
theorem multiFiles_merge (streams : List (List ℕ)) (hne : streams ≠ [])
    (hsorted : ∀ l ∈ streams, l.Sorted (· ≤ ·)) :
    List.Perm (drain (initState streams)) streams.flatten ∧
    (drain (initState streams)).Sorted (· ≤ ·) ∧
    (drain (initState streams)).length = multiFilesLen streams ∧
    (∀ st : MergeState, nextEvent st = none ↔ flattenState st = []) := by
  have hperm : List.Perm (drain (initState streams)) (flattenState (initState streams)) :=
    drainAux_perm _ _ (le_refl _)
  refine ⟨?_, ?_, ?_, ?_⟩
  · rw [← flattenState_initState streams]
    exact hperm
  · exact drainAux_sorted _ _ (le_refl _) (sortedState_initState hsorted)
  · rw [hperm.length_eq, flattenState_initState, multiFilesLen]
    exact List.length_flatten streams
  · intro st
    rw [nextEvent_eq_none_iff, flattenState_eq_nil_iff]

/-- Witness for C2: the two interleaved streams `{1,3,5}` and
`{2,4,6}` merge to `1..6`. -/
theorem multiFiles_merge_witness :
    (([[1, 3, 5], [2, 4, 6]] : List (List ℕ)) ≠ []) ∧
    (∀ l ∈ ([[1, 3, 5], [2, 4, 6]] : List (List ℕ)), l.Sorted (· ≤ ·)) ∧
    (List.Perm (drain (initState [[1, 3, 5], [2, 4, 6]]))
        ([[1, 3, 5], [2, 4, 6]] : List (List ℕ)).flatten ∧
      (drain (initState [[1, 3, 5], [2, 4, 6]])).Sorted (· ≤ ·) ∧
      (drain (initState [[1, 3, 5], [2, 4, 6]])).length
          = multiFilesLen [[1, 3, 5], [2, 4, 6]] ∧
      (∀ st : MergeState, nextEvent st = none ↔ flattenState st = [])) :=
  ⟨by decide, by decide,
    multiFiles_merge [[1, 3, 5], [2, 4, 6]] (by decide) (by decide)⟩

end Merge

end CtapipeIoLst
